import Mathlib

/-!
Shallow embedding of the mechanical layer of the Shape crowd simulator
(src/mechanical_layer: Global.cpp, Agent.cpp, Crowd.cpp, InputStatic.cpp).

C++ doubles are modelled as real numbers, `std::vector`/`std::list` as
`List`, and the in-place mutation of the global agent table as explicit
state passing over `List AgentState`.  Out-of-range indexing, which the
C++ callers never exercise, is modelled with `List.getD` defaults.
-/

namespace CrowdMech

/-! ### double2 vector operations (Global.cpp operators) -/

/-- `operator+` on `double2`. -/
def v2add (a b : ℝ × ℝ) : ℝ × ℝ := (a.1 + b.1, a.2 + b.2)

/-- `operator-` on `double2`. -/
def v2sub (a b : ℝ × ℝ) : ℝ × ℝ := (a.1 - b.1, a.2 - b.2)

/-- Scalar multiplication `coef * R` on `double2`. -/
def smul2 (c : ℝ) (v : ℝ × ℝ) : ℝ × ℝ := (c * v.1, c * v.2)

/-- Dot product `operator%` on `double2`. -/
def dot2 (a b : ℝ × ℝ) : ℝ := a.1 * b.1 + a.2 * b.2

/-- Norm `operator!` on `double2`: `sqrt(a % a)`. -/
noncomputable def norm2 (a : ℝ × ℝ) : ℝ := Real.sqrt (dot2 a a)

/-! ### C `fmod` and the periodic-interval helpers (Global.cpp) -/

/-- Truncation toward zero, as a real number (the rounding used by C `fmod`). -/
noncomputable def truncR (z : ℝ) : ℝ := if 0 ≤ z then ((⌊z⌋ : ℤ) : ℝ) else ((⌈z⌉ : ℤ) : ℝ)

/-- C `fmod(x, y) = x - y * trunc(x / y)`; the result keeps the sign of `x`. -/
noncomputable def fmodR (x y : ℝ) : ℝ := x - y * truncR (x / y)

/-- `get_interval` from Global.cpp: `fmod(x + 0.5 * length, length) - 0.5 * length`. -/
noncomputable def get_interval (x length : ℝ) : ℝ := fmodR (x + 0.5 * length) length - 0.5 * length

/-- `get_distance` from Global.cpp, with the domain extents passed explicitly
instead of read from globals. -/
noncomputable def get_distance (Lx Ly : ℝ) (A B : ℝ × ℝ) : ℝ :=
  Real.sqrt (get_interval (A.1 - B.1) Lx ^ 2 + get_interval (A.2 - B.2) Ly ^ 2)

/-- Modelled from the spec: the toroidal minimum-image wrap of one coordinate
difference, a value in `[-L/2, L/2]` (the spec's words for what `get_interval`
is supposed to compute). -/
noncomputable def min_image_component (x L : ℝ) : ℝ := x - L * ((round (x / L) : ℤ) : ℝ)

/-- Modelled from the spec: the toroidal minimum-image distance on the
`Lx x Ly` domain. -/
noncomputable def min_image_distance (Lx Ly : ℝ) (A B : ℝ × ℝ) : ℝ :=
  Real.sqrt (min_image_component (A.1 - B.1) Lx ^ 2 + min_image_component (A.2 - B.2) Ly ^ 2)

/-- `get_distance_to_wall_and_closest_point` from Global.cpp. -/
noncomputable def get_distance_to_wall_and_closest_point (vertexA vertexB C : ℝ × ℝ) :
    ℝ × (ℝ × ℝ) :=
  let AB := v2sub vertexB vertexA
  let AC := v2sub C vertexA
  let gamma := dot2 AB AC / dot2 AB AB
  if gamma ≤ 0 then (norm2 AC, vertexA)
  else if 1 ≤ gamma then (norm2 (v2sub C vertexB), vertexB)
  else
    let P := v2add vertexA (smul2 gamma AB)
    (norm2 (v2sub C P), P)

/-! ### parse2DComponents (Global.cpp)

The comma-splitting of `getline` and `stod` are modelled at token level: the
input is the list of comma-separated tokens, each token being `some v` when
`stod` succeeds on it with value `v` and `none` when `stod` throws.  The
function returns `none` for `EXIT_FAILURE` and `some result` when the final
`return {EXIT_SUCCESS, {result[0], result[1]}}` statement is reached, where
`result` is the vector of parsed values that statement indexes into. -/

/-- The `while (getline(...))` loop of `parse2DComponents`. -/
def parse2DGo : List (Option ℚ) → List ℚ → Nat → Option (List ℚ)
  | [], result, _ => some result
  | t :: ts, result, counter =>
    match t with
    | none => none
    | some v =>
      let result2 := result ++ [v]
      let counter2 := counter + 1
      if 2 < counter2 then none else parse2DGo ts result2 counter2

/-- `parse2DComponents` from Global.cpp, at token level. -/
def parse2DComponents (tokens : List (Option ℚ)) : Option (List ℚ) :=
  parse2DGo tokens [] 0

/-! ### size_body and the Agent constructor (Agent.cpp) -/

/-- `size_body` from Agent.cpp: scans the offsets for the (first) index of
maximal magnitude, then returns the absolute value of THAT shape's radius plus
the maximal magnitude. -/
noncomputable def size_body (delta_gtos : List (ℝ × ℝ)) (radius_shapes : List ℝ) : ℝ :=
  let m := (List.range delta_gtos.length).foldl
    (fun acc i =>
      let magnitude := norm2 (delta_gtos.getD i (0, 0))
      if acc.1 < magnitude then (magnitude, i) else acc)
    ((0 : ℝ), (0 : Nat))
  let r0 := radius_shapes.getD m.2 0
  (if r0 < 0 then -r0 else r0) + m.1

/-- Modelled from the spec: `radius_enclose = max_i (abs delta_i + abs r_i)`
(the formula the spec states for the stored equivalent radius). -/
noncomputable def radius_enclose_spec (delta_gtos : List (ℝ × ℝ)) (radius_shapes : List ℝ) : ℝ :=
  ((delta_gtos.zip radius_shapes).map (fun dr => norm2 dr.1 + |dr.2|)).foldl max 0

/-! ### Agent state (Agent.h) -/

/-- The per-agent state of `struct Agent`, immutable data included. -/
@[ext]
structure AgentState where
  mass : ℝ
  moi : ℝ
  radius : ℝ
  theta_init : ℝ
  delta_gtos : List (ℝ × ℝ)
  radius_shapes : List ℝ
  x : ℝ
  y : ℝ
  theta : ℝ
  vx : ℝ
  vy : ℝ
  w : ℝ
  vx_des : ℝ
  vy_des : ℝ
  w_des : ℝ
  theta_des : ℝ
  v_des : ℝ × ℝ
  neighbours : List Nat
  neighbours_walls : List (Nat × Nat)

/-- An all-zero agent state, used as the `List.getD` default. -/
def dA : AgentState :=
  { mass := 0, moi := 0, radius := 0, theta_init := 0, delta_gtos := [], radius_shapes := []
    x := 0, y := 0, theta := 0, vx := 0, vy := 0, w := 0
    vx_des := 0, vy_des := 0, w_des := 0, theta_des := 0, v_des := (0, 0)
    neighbours := [], neighbours_walls := [] }

/-- The `Agent::Agent` constructor (Agent.cpp): stores `_radius = size_body(...)`
with the other immutable data; the mutable kinematics start unspecified and are
always overwritten by `updateSetting`, modelled here as zeros. -/
noncomputable def mkAgent (ds : List (ℝ × ℝ)) (rs : List ℝ) (th m I : ℝ) : AgentState :=
  { dA with mass := m, moi := I, radius := size_body ds rs, theta_init := th
            delta_gtos := ds, radius_shapes := rs }

/-- `Agent::get_r()`. -/
def get_r (ag : AgentState) : ℝ × ℝ := (ag.x, ag.y)

/-- `Agent::move()` (Agent.cpp): advance position and orientation by the
current velocities over `dt`. -/
def move (dtv : ℝ) (ag : AgentState) : AgentState :=
  { ag with x := ag.x + ag.vx * dtv, y := ag.y + ag.vy * dtv, theta := ag.theta + ag.w * dtv }

/-! ### List helpers for the stateful loops -/

/-- In-place update of one slot of the agent table. -/
def updateAt : List α → Nat → (α → α) → List α
  | [], _, _ => []
  | a :: as, 0, f => f a :: as
  | a :: as, i + 1, f => a :: updateAt as i f

/-- A loop `for i in s, s+1, ...` that rewrites every element from its index. -/
def mapIdxFrom (f : Nat → α → α) : Nat → List α → List α
  | _, [] => []
  | s, a :: as => f s a :: mapIdxFrom f (s + 1) as

theorem length_updateAt (l : List α) (i : Nat) (f : α → α) :
    (updateAt l i f).length = l.length := by
  induction l generalizing i with
  | nil => rfl
  | cons a as ih =>
    cases i with
    | zero => rfl
    | succ j => simpa [updateAt] using ih j

theorem getD_updateAt_eq (l : List α) (i : Nat) (f : α → α) (d : α) (h : i < l.length) :
    (updateAt l i f).getD i d = f (l.getD i d) := by
  induction l generalizing i with
  | nil => simp at h
  | cons a as ih =>
    cases i with
    | zero => rfl
    | succ j =>
      simp only [updateAt, List.getD_cons_succ]
      exact ih j (by simpa using h)

theorem getD_updateAt_ne (l : List α) (i j : Nat) (f : α → α) (d : α) (h : i ≠ j) :
    (updateAt l i f).getD j d = l.getD j d := by
  induction l generalizing i j with
  | nil => rfl
  | cons a as ih =>
    cases i with
    | zero =>
      cases j with
      | zero => exact absurd rfl h
      | succ k => rfl
    | succ i0 =>
      cases j with
      | zero => rfl
      | succ k =>
        simp only [updateAt, List.getD_cons_succ]
        exact ih i0 k (by omega)

theorem getD_mapIdxFrom (f : Nat → α → α) (s : Nat) (l : List α) (j : Nat) (d : α)
    (h : j < l.length) :
    (mapIdxFrom f s l).getD j d = f (s + j) (l.getD j d) := by
  induction l generalizing s j with
  | nil => simp at h
  | cons a as ih =>
    cases j with
    | zero => simp [mapIdxFrom]
    | succ k =>
      simp only [mapIdxFrom, List.getD_cons_succ]
      rw [ih (s + 1) k (by simpa using h)]
      congr 1
      omega

theorem length_mapIdxFrom (f : Nat → α → α) (s : Nat) (l : List α) :
    (mapIdxFrom f s l).length = l.length := by
  induction l generalizing s with
  | nil => rfl
  | cons a as ih => simp [mapIdxFrom, ih]

/-! ### Activation predictor: get_future_collision (Crowd.cpp) -/

/-- The speed ceiling `vMaxAgent` (Global.h). -/
def vMaxAgent : ℝ := 7

/-- The tentative projection of `get_future_collision`:
`x += vx_des*dt; y += vy_des*dt; theta += w_des*dt`. -/
def projectDes (dtv : ℝ) (ag : AgentState) : AgentState :=
  { ag with x := ag.x + ag.vx_des * dtv, y := ag.y + ag.vy_des * dtv
            theta := ag.theta + ag.w_des * dtv }

/-- The reversion of the tentative projection (subtracting the same deltas). -/
def revertDes (dtv : ℝ) (ag : AgentState) : AgentState :=
  { ag with x := ag.x - ag.vx_des * dtv, y := ag.y - ag.vy_des * dtv
            theta := ag.theta - ag.w_des * dtv }

/-- Midpoint of wall segment `iwall` of obstacle `iobs`:
`0.5 * (listObstacles[iobs][iwall] + listObstacles[iobs][iwall+1])`. -/
def middlePointWall (obstacles : List (List (ℝ × ℝ))) (ow : Nat × Nat) : ℝ × ℝ :=
  smul2 0.5 (v2add ((obstacles.getD ow.1 []).getD ow.2 (0, 0))
                    ((obstacles.getD ow.1 []).getD (ow.2 + 1) (0, 0)))

/-- `if (!is_mechanically_active(agent)) mech_active_agents.push_back(agent)`. -/
def pushIfInactive (a : Nat) (act : List Nat) : List Nat :=
  if a ∈ act then act else act ++ [a]

/-- The agent/wall overlap test of the scan: `!(r - M) < radius + 1e-1`
(the Euclidean norm of the unwrapped difference to the segment midpoint). -/
def wallCond (obstacles : List (List (ℝ × ℝ))) (ag : AgentState) (ow : Nat × Nat) : Prop :=
  norm2 (v2sub (get_r ag) (middlePointWall obstacles ow)) < ag.radius + 1e-1

/-- The agent/agent overlap test of the scan:
`!(r1 - r2) < fabs(radius1 + radius2) + 1e-1`. -/
def nbrCond (ags : List AgentState) (ag : AgentState) (b : Nat) : Prop :=
  norm2 (v2sub (get_r ag) (get_r (ags.getD b dA))) <
    |ag.radius + (ags.getD b dA).radius| + 1e-1

noncomputable instance (obstacles : List (List (ℝ × ℝ))) (ag : AgentState) (ow : Nat × Nat) :
    Decidable (wallCond obstacles ag ow) := by
  unfold wallCond
  infer_instance

noncomputable instance (ags : List AgentState) (ag : AgentState) (b : Nat) :
    Decidable (nbrCond ags ag b) := by
  unfold nbrCond
  infer_instance

/-- The body of the wall loop of the overlap scan for agent `a`. -/
noncomputable def wallStep (obstacles : List (List (ℝ × ℝ))) (ag : AgentState) (a : Nat)
    (act : List Nat) (ow : Nat × Nat) : List Nat :=
  if wallCond obstacles ag ow then pushIfInactive a act else act

/-- The wall half of the overlap scan for one agent: for every stored wall
neighbour, if the test fires, push the agent unless already active. -/
noncomputable def scanWalls (obstacles : List (List (ℝ × ℝ))) (ag : AgentState) (a : Nat)
    (act : List Nat) : List Nat :=
  ag.neighbours_walls.foldl (wallStep obstacles ag a) act

/-- The body of the neighbour loop of the overlap scan for agent `a`: when the
test fires, push `agent1` then `agent2`, each unless already active. -/
noncomputable def nbrStep (ags : List AgentState) (ag : AgentState) (a : Nat)
    (act : List Nat) (b : Nat) : List Nat :=
  if nbrCond ags ag b then pushIfInactive b (pushIfInactive a act) else act

/-- The agent half of the overlap scan for one agent. -/
noncomputable def scanNbrs (ags : List AgentState) (ag : AgentState) (a : Nat)
    (act : List Nat) : List Nat :=
  ag.neighbours.foldl (nbrStep ags ag a) act

/-- The per-agent body of the overlap scan: walls first, then agent neighbours. -/
noncomputable def scanAgentStep (obstacles : List (List (ℝ × ℝ))) (ags : List AgentState)
    (act : List Nat) (a : Nat) : List Nat :=
  scanNbrs ags (ags.getD a dA) a (scanWalls obstacles (ags.getD a dA) a act)

/-- The overlap scan of `get_future_collision`, run on the projected table:
walls then agent neighbours, for each agent id in order, starting from the
cleared active list. -/
noncomputable def overlapScan (obstacles : List (List (ℝ × ℝ))) (ags : List AgentState) :
    List Nat :=
  (List.range ags.length).foldl (scanAgentStep obstacles ags) []

/-- The reactivity stage: add every agent with
`(vx-vx_des)^2 + (vy-vy_des)^2 + (w-w_des)^2 > 1e-4` that is not yet active. -/
noncomputable def reactivityAdd (ags : List AgentState) (act : List Nat) : List Nat :=
  (List.range ags.length).foldl
    (fun act a =>
      let ag := ags.getD a dA
      if ((ag.vx - ag.vx_des) ^ 2 + (ag.vy - ag.vy_des) ^ 2 + (ag.w - ag.w_des) ^ 2 > 1e-4)
          ∧ a ∉ act then
        act ++ [a]
      else act)
    act

/-- One inner pass of the closure stage: append every neighbour that is not yet
active to the end of the active list (`is_mechanically_active` is checked
against the list as it grows). -/
def addNbrs (l ns : List Nat) : List Nat :=
  ns.foldl (fun w n => if n ∈ w then w else w ++ [n]) l

/-- Neighbour list of agent `p` as read by the closure loop. -/
def nbrsOf (ags : List AgentState) (p : Nat) : List Nat := (ags.getD p dA).neighbours

/-- The closure loop of `get_future_collision`: `for (agent : mech_active_agents)`
iterates a `std::list` that is being appended to, so the loop also processes the
agents appended during the loop; it runs until the cursor reaches the end of the
(grown) list.  `fuel` bounds the number of processed elements; the top-level
wrapper passes more fuel than any execution can use. -/
def closureGo (ags : List AgentState) : Nat → List Nat → Nat → List Nat
  | 0, l, _ => l
  | fuel + 1, l, i =>
    if i < l.length then closureGo ags fuel (addNbrs l (nbrsOf ags (l.getD i 0))) (i + 1)
    else l

/-- The closure stage: process the active list from the front, appending the
missing neighbours of each processed agent. -/
def closure (ags : List AgentState) (l : List Nat) : List Nat :=
  closureGo ags (ags.length + l.length) l 0

/-- `get_future_collision` (Crowd.cpp): project all agents by their desired
velocities, run the overlap scan on the projected table, revert the projection,
add the velocity-mismatch agents, close the active set over neighbours, and
report whether it is non-empty.  Returned: the agent table after the call, the
final `mech_active_agents` list (as ids), and the boolean result. -/
noncomputable def get_future_collision (obstacles : List (List (ℝ × ℝ))) (dtv : ℝ)
    (ags : List AgentState) : List AgentState × List Nat × Bool :=
  let projected := ags.map (projectDes dtv)
  let act1 := overlapScan obstacles projected
  let reverted := projected.map (revertDes dtv)
  let act2 := reactivityAdd reverted act1
  let act3 := closure reverted act2
  (reverted, act3, !act3.isEmpty)

/-! ### Passive relaxation (handleMechanicalLayer, Crowd.cpp) -/

/-- The passive branch of `handleMechanicalLayer` for one agent: relax the
velocities toward the desired ones with the closed-form exponential, then
`move()` with the NEW velocities.  `invTauT`, `invTauR` are the stored damping
rates `1/tau` from `agentProperties`. -/
noncomputable def passiveUpdate (invTauT invTauR dtv : ℝ) (ag : AgentState) : AgentState :=
  move dtv
    { ag with
      vx := (1 - Real.exp (-dtv * invTauT)) * ag.vx_des + Real.exp (-dtv * invTauT) * ag.vx
      vy := (1 - Real.exp (-dtv * invTauT)) * ag.vy_des + Real.exp (-dtv * invTauT) * ag.vy
      w := (1 - Real.exp (-dtv * invTauR)) * ag.w_des + Real.exp (-dtv * invTauR) * ag.w }

/-- The loop of `handleMechanicalLayer` over non-active agents (the active ones
are handled by the MechanicalLayer sub-stepper, which is outside this file's
sources and does not touch inactive agents). -/
noncomputable def handlePassive (props : List (ℝ × ℝ)) (dtv : ℝ) (active : List Nat)
    (ags : List AgentState) : List AgentState :=
  mapIdxFrom
    (fun a ag =>
      if a ∈ active then ag
      else passiveUpdate (props.getD a (0, 0)).1 (props.getD a (0, 0)).2 dtv ag)
    0 ags

/-! ### Neighbourhood builder: determine_agents_neighbours (Crowd.cpp) -/

/-- The wall loop of `determine_agents_neighbours` for agent `a1`: every
segment with point-to-segment distance below `dt * vMaxAgent` is APPENDED to
the agent's wall-neighbour list (the list is not cleared first). -/
noncomputable def wallPass (dtv : ℝ) (obstacles : List (List (ℝ × ℝ))) (t : List AgentState)
    (a1 : Nat) : List AgentState :=
  (List.range obstacles.length).foldl
    (fun t iobs =>
      (List.range ((obstacles.getD iobs []).length - 1)).foldl
        (fun t iwall =>
          let dc := get_distance_to_wall_and_closest_point
            ((obstacles.getD iobs []).getD iwall (0, 0))
            ((obstacles.getD iobs []).getD (iwall + 1) (0, 0))
            (get_r (t.getD a1 dA))
          if dc.1 < dtv * vMaxAgent then
            updateAt t a1 (fun ag => { ag with neighbours_walls := ag.neighbours_walls ++ [(iobs, iwall)] })
          else t)
        t)
    t

/-- The agent loop of `determine_agents_neighbours` for agent `a1`: every later
agent within `2 * dt * vMaxAgent` periodic distance is appended symmetrically
to both neighbour lists. -/
noncomputable def agentPairPass (Lx Ly dtv : ℝ) (t : List AgentState) (a1 : Nat) :
    List AgentState :=
  (List.range' (a1 + 1) (t.length - (a1 + 1))).foldl
    (fun t a2 =>
      let r1 := get_r (t.getD a1 dA)
      let r2 := get_r (t.getD a2 dA)
      if get_distance Lx Ly r1 r2 < 2 * (dtv * vMaxAgent) then
        updateAt (updateAt t a1 (fun ag => { ag with neighbours := ag.neighbours ++ [a2] }))
                 a2 (fun ag => { ag with neighbours := ag.neighbours ++ [a1] })
      else t)
    t

/-- `determine_agents_neighbours` (Crowd.cpp): walls then later agents, for
every agent id in order. -/
noncomputable def determine_agents_neighbours (Lx Ly dtv : ℝ)
    (obstacles : List (List (ℝ × ℝ))) (t0 : List AgentState) : List AgentState :=
  (List.range t0.length).foldl
    (fun t a1 => agentPairPass Lx Ly dtv (wallPass dtv obstacles t a1) a1)
    t0

/-! ### updateSetting (Crowd.cpp)

The XML dynamics file is modelled as a list of entry records, one per `<Agent>`
element, with each attribute already classified: `none` marks an attribute that
is absent or whose text fails to parse.  `idx` is the result of the `agentMap`
lookup (`none` when the `Id` attribute is absent or unknown).  The C++ reads of
the uninitialized locals `theta`/`omega` after a failed `QueryDoubleAttribute`
(which only prints to `cerr` and continues) are modelled by an explicit
`garbage` parameter. -/

/-- One `<Agent>` entry of the dynamics file, as consumed by `updateSetting`. -/
structure DynEntry where
  idx : Option Nat
  hasKinematics : Bool
  position : Option (ℝ × ℝ)
  velocity : Option (ℝ × ℝ)
  theta : Option ℝ
  omega : Option ℝ
  hasDynamics : Bool
  fp : Option (ℝ × ℝ)
  mp : Option ℝ

/-- A fully absent entry, used as the `List.getD` default. -/
def dE : DynEntry :=
  { idx := none, hasKinematics := false, position := none, velocity := none
    theta := none, omega := none, hasDynamics := false, fp := none, mp := none }

/-- `atan2(y, x)` of C, in terms of `Real.arctan`. -/
noncomputable def atan2 (yv xv : ℝ) : ℝ :=
  if 0 < xv then Real.arctan (yv / xv)
  else if xv < 0 then
    if 0 ≤ yv then Real.arctan (yv / xv) + Real.pi else Real.arctan (yv / xv) - Real.pi
  else if 0 < yv then Real.pi / 2 else if yv < 0 then -(Real.pi / 2) else 0

/-- The body of the `while (agentElement)` loop of `updateSetting` for one
entry: `none` models one of the `return EXIT_FAILURE` statements, `some t`
the updated agent table after the final field writes (which also clear the
agent-neighbour list but not the wall-neighbour list). -/
noncomputable def processEntry (garbage : ℝ) (props : List (ℝ × ℝ)) (t : List AgentState)
    (e : DynEntry) : Option (List AgentState) :=
  match e.idx with
  | none => none
  | some a =>
    if ¬e.hasKinematics then none
    else
      match e.position with
      | none => none
      | some pos =>
        match e.velocity with
        | none => none
        | some vel =>
          let th := e.theta.getD garbage
          let om := e.omega.getD garbage
          if ¬e.hasDynamics then none
          else
            match e.fp with
            | none => none
            | some fp =>
              match e.mp with
              | none => none
              | some mp =>
                let invT := (props.getD a (0, 0)).1
                let invR := (props.getD a (0, 0)).2
                some (updateAt t a (fun ag =>
                  let vxd := fp.1 / invT / ag.mass
                  let vyd := fp.2 / invT / ag.mass
                  { ag with x := pos.1, y := pos.2, theta := th
                            vx := vel.1, vy := vel.2, w := om
                            vx_des := vxd, vy_des := vyd
                            w_des := mp / invR / ag.moi
                            theta_des := if ¬(vxd = 0 ∧ vyd = 0) then atan2 vyd vxd else 0
                            v_des := (vxd, vyd)
                            neighbours := [] }))

/-- The `while (agentElement)` loop of `updateSetting`: entries are processed in
file order; the first failing entry aborts the loop with the table as mutated
so far. -/
noncomputable def updateSettingGo (garbage : ℝ) (props : List (ℝ × ℝ)) :
    List AgentState → List DynEntry → Bool × List AgentState
  | t, [] => (true, t)
  | t, e :: es =>
    match processEntry garbage props t e with
    | none => (false, t)
    | some t2 => updateSettingGo garbage props t2 es

/-- The all-entries-succeed run, for stating what a failed run applied. -/
noncomputable def applyEntries (garbage : ℝ) (props : List (ℝ × ℝ)) :
    List AgentState → List DynEntry → Option (List AgentState)
  | t, [] => some t
  | t, e :: es =>
    match processEntry garbage props t e with
    | none => none
    | some t2 => applyEntries garbage props t2 es

/-- `updateSetting` (Crowd.cpp): fail when the file has no `<Agent>` entry,
process the entries, fail when fewer entries than agents were present, and on
success rebuild the neighbourhoods with `determine_agents_neighbours`. -/
noncomputable def updateSetting (garbage : ℝ) (props : List (ℝ × ℝ)) (Lx Ly dtv : ℝ)
    (obstacles : List (List (ℝ × ℝ))) (ags : List AgentState) (entries : List DynEntry) :
    Bool × List AgentState :=
  if entries.isEmpty then (false, ags)
  else
    match updateSettingGo garbage props ags entries with
    | (false, t) => (false, t)
    | (true, t) =>
      if entries.length < ags.length then (false, t)
      else (true, determine_agents_neighbours Lx Ly dtv obstacles t)

/-! ### readAgents (InputStatic.cpp)

Only the per-record control flow matters for the claims: which absent
attributes make `readAgents` return `EXIT_FAILURE` and which are merely
reported on `cerr` while the loop continues with an uninitialized local. -/

/-- One `<Shape>` element of the agents file. -/
structure ShapeRec where
  hasId : Bool
  materialId : Option Nat
  radius : Option ℝ
  position : Option (ℝ × ℝ)

/-- One `<Agent>` element of the agents file. -/
structure AgentRec where
  hasId : Bool
  mass : Option ℝ
  moi : Option ℝ
  floorDamping : Option ℝ
  angularDamping : Option ℝ
  shapes : List ShapeRec

/-- The shape loop body of `readAgents`: material, radius and position are all
required (failure on absence); the collected data is returned. -/
def readShape (knownMaterials : List Nat) (s : ShapeRec) : Option (Nat × ℝ × (ℝ × ℝ)) :=
  if ¬s.hasId then none
  else
    match s.materialId with
    | none => none
    | some m =>
      if m ∉ knownMaterials then none
      else
        match s.radius with
        | none => none
        | some r =>
          match s.position with
          | none => none
          | some p => some (m, r, p)

/-- All shapes of one agent record, in order. -/
def readShapes (knownMaterials : List Nat) : List ShapeRec → Option (List (Nat × ℝ × (ℝ × ℝ)))
  | [] => some []
  | s :: ss =>
    match readShape knownMaterials s with
    | none => none
    | some d =>
      match readShapes knownMaterials ss with
      | none => none
      | some ds => some (d :: ds)

/-- One `<Agent>` record of `readAgents`: a missing `Id`, damping attribute or
shape data is a failure, but a missing `Mass` or `MomentOfInertia` only prints
to `cerr` and the uninitialized local (modelled by `garbage`) is pushed. -/
def readAgentRec (garbage : ℝ) (knownMaterials : List Nat) (rec : AgentRec) :
    Option (ℝ × ℝ × ℝ × ℝ × List (Nat × ℝ × (ℝ × ℝ))) :=
  if ¬rec.hasId then none
  else
    let mass := rec.mass.getD garbage
    let moi := rec.moi.getD garbage
    match rec.floorDamping with
    | none => none
    | some ft =>
      match rec.angularDamping with
      | none => none
      | some fr =>
        if rec.shapes.isEmpty then none
        else
          match readShapes knownMaterials rec.shapes with
          | none => none
          | some ds => some (mass, moi, ft, fr, ds)

/-- The agent loop of `readAgents`: every record in order, failing when any
record fails and when the file has no record at all. -/
def readAgents (garbage : ℝ) (knownMaterials : List Nat) (recs : List AgentRec) :
    Option (List (ℝ × ℝ × ℝ × ℝ × List (Nat × ℝ × (ℝ × ℝ)))) :=
  if recs.isEmpty then none
  else
    recs.foldr
      (fun rec acc =>
        match readAgentRec garbage knownMaterials rec with
        | none => none
        | some d =>
          match acc with
          | none => none
          | some ds => some (d :: ds))
      (some [])

/-! ### Evaluation helpers -/

theorem sqrt_eval {a b : ℝ} (hb : 0 ≤ b) (h : b ^ 2 = a) : Real.sqrt a = b := by
  rw [← h, Real.sqrt_sq hb]

/-! ### C10: parse2DComponents bounds -/

/-- C10: the claim states that every execution of `parse2DComponents` reaching
the success return has parsed at least two components, so that the reads of
`result[0]` and `result[1]` are in bounds.  On the single-token input `"1"` the
loop exits normally with `result = [1]` and the success return is reached with
`result.size() == 1`, so `result[1]` is read out of bounds (and on the empty
input both reads are); the function does not return `EXIT_FAILURE` first. -/
theorem C10_parse2D_reaches_success_with_short_vector :
    parse2DComponents [some 1] = some [1] ∧ ([1] : List ℚ).length < 2 ∧
    parse2DComponents [] = some [] := by
  refine ⟨rfl, by norm_num, rfl⟩

/-! ### C1: size_body versus the spec formula -/

theorem norm2_one_zero : norm2 ((1 : ℝ), (0 : ℝ)) = 1 := by
  simp only [norm2, dot2]
  rw [show (1 : ℝ) * 1 + 0 * 0 = 1 by norm_num, Real.sqrt_one]

theorem norm2_three_four : norm2 ((3 : ℝ), (4 : ℝ)) = 5 := by
  simp only [norm2, dot2]
  exact sqrt_eval (by norm_num) (by norm_num)

theorem size_body_eval : size_body [((1 : ℝ), (0 : ℝ)), (3, 4)] [10, 1] = 6 := by
  have hrange : List.range 2 = [0, 1] := rfl
  unfold size_body
  simp only [List.length_cons, List.length_nil]
  rw [show (0 : Nat) + 1 + 1 = 2 from rfl, hrange]
  simp only [List.foldl_cons, List.foldl_nil, List.getD_cons_zero, List.getD_cons_succ,
    norm2_one_zero, norm2_three_four]
  norm_num

theorem radius_enclose_spec_eval :
    radius_enclose_spec [((1 : ℝ), (0 : ℝ)), (3, 4)] [10, 1] = 11 := by
  simp only [radius_enclose_spec, List.zip, List.zipWith, List.map_cons, List.map_nil,
    List.foldl_cons, List.foldl_nil, norm2_one_zero, norm2_three_four]
  rw [show |(10 : ℝ)| = 10 by norm_num, show |(1 : ℝ)| = 1 by norm_num]
  norm_num

/-- C1: the claim states that the stored `_radius` equals
`max_i (abs delta_i + abs r_i)`.  For the two-shape agent with offsets
`(1,0), (3,4)` and radii `10, 1` the constructor stores
`size_body = abs r_j + abs delta_j` for `j` the index of maximal offset
magnitude, which is `1 + 5 = 6`, while the claimed formula gives
`max (1 + 10) (5 + 1) = 11`: the code keeps only the radius of the shape with
the largest offset, contradicting both the claim and `size_body`'s own
documentation (the smallest circle containing all the shapes). -/
theorem C1_radius_enclose_bug :
    (mkAgent [((1 : ℝ), (0 : ℝ)), (3, 4)] [10, 1] 0 1 1).radius = 6 ∧
    radius_enclose_spec [((1 : ℝ), (0 : ℝ)), (3, 4)] [10, 1] = 11 := by
  constructor
  · show size_body [((1 : ℝ), (0 : ℝ)), (3, 4)] [10, 1] = 6
    exact size_body_eval
  · exact radius_enclose_spec_eval

/-! ### C9: the predictor is side-effect-free and idempotent -/

theorem revert_project (dtv : ℝ) (ag : AgentState) :
    revertDes dtv (projectDes dtv ag) = ag := by
  cases ag
  simp [projectDes, revertDes, add_sub_cancel_right]

/-- C9: the tentative projection of `get_future_collision` is exactly reverted
(the returned agent table equals the input table), and a second run on the
returned table produces the same table, active set and boolean result. -/
theorem C9_predictor_idempotent (obstacles : List (List (ℝ × ℝ))) (dtv : ℝ)
    (ags : List AgentState) :
    (get_future_collision obstacles dtv ags).1 = ags ∧
    get_future_collision obstacles dtv (get_future_collision obstacles dtv ags).1 =
      get_future_collision obstacles dtv ags := by
  have h1 : (get_future_collision obstacles dtv ags).1 = ags := by
    show (ags.map (projectDes dtv)).map (revertDes dtv) = ags
    rw [List.map_map]
    have hcomp : revertDes dtv ∘ projectDes dtv = id := funext (revert_project dtv)
    rw [hcomp, List.map_id]
  exact ⟨h1, by rw [h1]⟩

/-! ### C5: passive relaxation of inactive agents -/

/-- C5: for an agent that is not mechanically active, the macro step sets each
translational velocity component to `v_des*(1 - e^(-dt/tau_t)) + v*e^(-dt/tau_t)`,
the angular velocity to `w_des*(1 - e^(-dt/tau_r)) + w*e^(-dt/tau_r)`, and then
advances position and orientation by the NEW velocities. -/
theorem C5_passive_relaxation (props : List (ℝ × ℝ)) (dtv taut taur : ℝ)
    (active : List Nat) (ags : List AgentState) (a : Nat)
    (ha : a < ags.length) (hact : a ∉ active)
    (hprops : props.getD a (0, 0) = (1 / taut, 1 / taur)) :
    ((handlePassive props dtv active ags).getD a dA).vx =
        (ags.getD a dA).vx_des * (1 - Real.exp (-dtv / taut)) +
          (ags.getD a dA).vx * Real.exp (-dtv / taut) ∧
    ((handlePassive props dtv active ags).getD a dA).vy =
        (ags.getD a dA).vy_des * (1 - Real.exp (-dtv / taut)) +
          (ags.getD a dA).vy * Real.exp (-dtv / taut) ∧
    ((handlePassive props dtv active ags).getD a dA).w =
        (ags.getD a dA).w_des * (1 - Real.exp (-dtv / taur)) +
          (ags.getD a dA).w * Real.exp (-dtv / taur) ∧
    ((handlePassive props dtv active ags).getD a dA).x =
        (ags.getD a dA).x + ((handlePassive props dtv active ags).getD a dA).vx * dtv ∧
    ((handlePassive props dtv active ags).getD a dA).y =
        (ags.getD a dA).y + ((handlePassive props dtv active ags).getD a dA).vy * dtv ∧
    ((handlePassive props dtv active ags).getD a dA).theta =
        (ags.getD a dA).theta + ((handlePassive props dtv active ags).getD a dA).w * dtv := by
  have hget : (handlePassive props dtv active ags).getD a dA =
      passiveUpdate (props.getD a (0, 0)).1 (props.getD a (0, 0)).2 dtv (ags.getD a dA) := by
    unfold handlePassive
    rw [getD_mapIdxFrom _ 0 ags a dA ha]
    simp [hact]
  have harg : -dtv * (1 / taut) = -dtv / taut := by ring
  have harg2 : -dtv * (1 / taur) = -dtv / taur := by ring
  rw [hget, hprops]
  refine ⟨?_, ?_, ?_, ?_, ?_, ?_⟩ <;>
    simp only [passiveUpdate, move, harg, harg2] <;>
    try ring

/-- Witness for C5 at a concrete input: one agent, no active set, `tau = 1/2`. -/
theorem C5_passive_relaxation_witness :
    (0 : Nat) < ([dA] : List AgentState).length ∧ (0 : Nat) ∉ ([] : List Nat) ∧
    ((handlePassive [((2 : ℝ), (2 : ℝ))] 1 [] [dA]).getD 0 dA).vx =
        (([dA] : List AgentState).getD 0 dA).vx_des * (1 - Real.exp (-1 / (1 / 2))) +
          (([dA] : List AgentState).getD 0 dA).vx * Real.exp (-1 / (1 / 2)) := by
  refine ⟨by norm_num, by simp, ?_⟩
  exact (C5_passive_relaxation [((2 : ℝ), (2 : ℝ))] 1 (1 / 2) (1 / 2) [] [dA] 0
    (by norm_num) (by simp) (by norm_num)).1

/-! ### C2: get_distance is not the minimum-image distance -/

theorem get_interval_eval_neg : get_interval (-99.8) 100 = -99.8 := by
  norm_num [get_interval, fmodR, truncR]
  rw [show (⌈-(249 / 500 : ℝ)⌉ : ℤ) = 0 by norm_num]
  norm_num

theorem get_interval_eval_pos : get_interval 99.8 100 = -0.2 := by
  norm_num [get_interval, fmodR, truncR]

theorem get_interval_eval_zero : get_interval 0 100 = 0 := by
  norm_num [get_interval, fmodR, truncR]

theorem get_distance_eval_ab : get_distance 100 100 (0.1, 50) (99.9, 50) = 99.8 := by
  unfold get_distance
  rw [show (0.1 : ℝ) - 99.9 = -99.8 by norm_num, show (50 : ℝ) - 50 = 0 by norm_num,
    get_interval_eval_neg, get_interval_eval_zero]
  exact sqrt_eval (by norm_num) (by norm_num)

theorem get_distance_eval_ba : get_distance 100 100 (99.9, 50) (0.1, 50) = 0.2 := by
  unfold get_distance
  rw [show (99.9 : ℝ) - 0.1 = 99.8 by norm_num, show (50 : ℝ) - 50 = 0 by norm_num,
    get_interval_eval_pos, get_interval_eval_zero]
  exact sqrt_eval (by norm_num) (by norm_num)

theorem min_image_distance_eval_ab : min_image_distance 100 100 (0.1, 50) (99.9, 50) = 0.2 := by
  unfold min_image_distance min_image_component
  norm_num [round_eq]
  rw [show Real.sqrt 25 = 5 from sqrt_eval (by norm_num) (by norm_num)]
  norm_num

/-- The two agents of the spec's periodic-distance scenario. -/
def agC2a : AgentState := { dA with x := 0.1, y := 50, radius := 0.2 }

/-- The second agent of the spec's periodic-distance scenario. -/
def agC2b : AgentState := { dA with x := 99.9, y := 50, radius := 0.2 }

theorem wallPass_nil (dtv : ℝ) (t : List AgentState) (a1 : Nat) :
    wallPass dtv [] t a1 = t := rfl

theorem C2_builder_no_pair :
    determine_agents_neighbours 100 100 0.1 [] [agC2a, agC2b] = [agC2a, agC2b] := by
  have hda : get_distance 100 100 (get_r agC2a) (get_r agC2b) = 99.8 := by
    show get_distance 100 100 (0.1, 50) (99.9, 50) = 99.8
    exact get_distance_eval_ab
  have hstep0 : agentPairPass 100 100 0.1 [agC2a, agC2b] 0 = [agC2a, agC2b] := by
    unfold agentPairPass
    rw [show ([agC2a, agC2b] : List AgentState).length - (0 + 1) = 1 from rfl,
        show List.range' (0 + 1) 1 = [1] from rfl]
    simp only [List.foldl_cons, List.foldl_nil, List.getD_cons_zero, List.getD_cons_succ]
    have hcond : ¬ (get_distance 100 100 (get_r agC2a) (get_r agC2b) <
        2 * ((0.1 : ℝ) * vMaxAgent)) := by
      rw [hda]
      norm_num [vMaxAgent]
    rw [if_neg hcond]
  unfold determine_agents_neighbours
  rw [show ([agC2a, agC2b] : List AgentState).length = 2 from rfl,
      show List.range 2 = [0, 1] from rfl]
  simp only [List.foldl_cons, List.foldl_nil]
  rw [wallPass_nil, wallPass_nil, hstep0]
  rfl

/-- C2: the claim states that `get_distance` wraps each coordinate difference
to the minimum-magnitude periodic image in `[-L/2, L/2]` and that the agents at
`(0.1, 50)` and `(99.9, 50)` on the 100 x 100 torus are at distance `0.2` and
are paired by the neighbourhood builder.  On the code, `fmod` keeps the sign of
its first argument, so the difference `-99.8` is returned unwrapped:
`get_distance((0.1,50),(99.9,50)) = 99.8` (the same call with the arguments
swapped gives `0.2`, so the function is not even symmetric), the true
minimum-image distance is `0.2`, and `determine_agents_neighbours` leaves both
neighbour lists empty instead of pairing the two agents. -/
theorem C2_get_distance_bug :
    get_distance 100 100 (0.1, 50) (99.9, 50) = 99.8 ∧
    get_distance 100 100 (99.9, 50) (0.1, 50) = 0.2 ∧
    min_image_distance 100 100 (0.1, 50) (99.9, 50) = 0.2 ∧
    determine_agents_neighbours 100 100 0.1 [] [agC2a, agC2b] = [agC2a, agC2b] :=
  ⟨get_distance_eval_ab, get_distance_eval_ba, min_image_distance_eval_ab, C2_builder_no_pair⟩

/-! ### C7: missing attributes that do NOT fail -/

/-- A unit-mass agent, the base state for the input-processing scenarios. -/
def agU : AgentState := { dA with mass := 1, moi := 1 }

/-- A dynamics entry whose `Kinematics` tag lacks the `Theta` attribute but is
otherwise complete. -/
def entryNoTheta : DynEntry :=
  { idx := some 0, hasKinematics := true, position := some (1, 2), velocity := some (0, 0)
    theta := none, omega := some 0, hasDynamics := true, fp := some (0, 0), mp := some 0 }

/-- A shape record with every attribute present. -/
def shapeOK : ShapeRec :=
  { hasId := true, materialId := some 0, radius := some 1, position := some (0, 0) }

/-- An agent record lacking the `Mass` attribute but otherwise complete. -/
def agentRecNoMass : AgentRec :=
  { hasId := true, mass := none, moi := some 1, floorDamping := some 1
    angularDamping := some 1, shapes := [shapeOK] }

/-- C7: the claim states that a dynamics entry missing `Theta` (or `Omega`), or
an agent record missing `Mass` (or `MomentOfInertia`), makes the call return a
nonzero code.  On the code, both reads only print to `cerr` and continue with
an uninitialized local: `updateSetting` returns success on an entry with no
`Theta`, and `readAgents` returns success on a record with no `Mass`, storing
the uninitialized value (`garbage`) as the mass — contradicting both functions'
documented `EXIT_FAILURE`-on-missing-field contract. -/
theorem C7_missing_attribute_not_failure (garbage : ℝ) :
    (updateSetting garbage [((1 : ℝ), 1)] 100 100 0.1 [] [agU] [entryNoTheta]).1 = true ∧
    readAgents garbage [0] [agentRecNoMass] =
      some [(garbage, 1, 1, 1, [(0, 1, ((0 : ℝ), 0))])] :=
  ⟨rfl, rfl⟩

/-- Witness for C7 at a concrete garbage value. -/
theorem C7_missing_attribute_not_failure_witness :
    (updateSetting 0 [((1 : ℝ), 1)] 100 100 0.1 [] [agU] [entryNoTheta]).1 = true ∧
    readAgents 0 [0] [agentRecNoMass] = some [(0, 1, 1, 1, [(0, 1, ((0 : ℝ), 0))])] :=
  C7_missing_attribute_not_failure 0

/-! ### C6: failure does not roll back already-processed entries -/

/-- A complete, valid dynamics entry for agent 0 moving it to `(2, 3)`. -/
def entryC6ok : DynEntry :=
  { idx := some 0, hasKinematics := true, position := some (2, 3), velocity := some (4, 5)
    theta := some 6, omega := some 7, hasDynamics := true, fp := some (0, 0), mp := some 0 }

/-- A dynamics entry for agent 1 whose `Dynamics` tag lacks the `Mp` attribute. -/
def entryC6bad : DynEntry :=
  { idx := some 1, hasKinematics := true, position := some (0, 0), velocity := some (0, 0)
    theta := some 0, omega := some 0, hasDynamics := true, fp := some (0, 0), mp := none }

/-- C6 counterexample: the claim states that a failing `updateSetting` leaves
the mutable fields of EVERY agent unchanged.  With a valid first entry and a
second entry missing `Mp`, the call fails but agent 0's position has already
been overwritten from `(0, 0)` to `(2, 3)`. -/
theorem C6_counterexample :
    (updateSetting 0 [((1 : ℝ), 1), (1, 1)] 100 100 0.1 [] [agU, agU]
        [entryC6ok, entryC6bad]).1 = false ∧
    (((updateSetting 0 [((1 : ℝ), 1), (1, 1)] 100 100 0.1 [] [agU, agU]
        [entryC6ok, entryC6bad]).2.getD 0 dA).x = 2 ∧
      ((([agU, agU] : List AgentState).getD 0 dA).x = 0)) :=
  ⟨rfl, rfl, rfl⟩

/-- A successfully processed entry only modifies the agent slot it targets. -/
theorem processEntry_preserves (garbage : ℝ) (props : List (ℝ × ℝ)) (t t2 : List AgentState)
    (e : DynEntry) (he : processEntry garbage props t e = some t2) (j : Nat)
    (hj : e.idx ≠ some j) : t2.getD j dA = t.getD j dA := by
  unfold processEntry at he
  split at he
  · cases he
  rename_i a heq
  split at he
  · cases he
  split at he
  · cases he
  split at he
  · cases he
  split at he
  · cases he
  split at he
  · cases he
  split at he
  · cases he
  cases he
  have haj : a ≠ j := fun h => hj (by rw [heq, h])
  exact getD_updateAt_ne t a j _ dA haj

/-- C6 amended: when `updateSetting`'s entry loop fails, the resulting agent
table is the old table with exactly the entries before the failing entry
applied; every agent not targeted by one of those entries (in particular every
agent from the failing entry onward) still holds its old state. -/
theorem C6_amended_failure_applies_entries_before_failure (garbage : ℝ) (props : List (ℝ × ℝ)) :
    ∀ (es : List DynEntry) (t0 t : List AgentState),
      updateSettingGo garbage props t0 es = (false, t) →
      ∃ k, k < es.length ∧
        applyEntries garbage props t0 (es.take k) = some t ∧
        processEntry garbage props t (es.getD k dE) = none ∧
        ∀ j : Nat, (∀ i, i < k → (es.getD i dE).idx ≠ some j) →
          t.getD j dA = t0.getD j dA := by
  intro es
  induction es with
  | nil =>
    intro t0 t h
    exact absurd (congrArg Prod.fst h) (by simp [updateSettingGo])
  | cons e es ih =>
    intro t0 t h
    unfold updateSettingGo at h
    cases hpe : processEntry garbage props t0 e with
    | none =>
      rw [hpe] at h
      have ht : t = t0 := (Prod.mk.injEq _ _ _ _ ▸ h).2.symm
      subst ht
      refine ⟨0, by simp, by simp [applyEntries], by simpa [List.getD_cons_zero] using hpe, ?_⟩
      intro j _
      rfl
    | some t2 =>
      rw [hpe] at h
      obtain ⟨k, hk, happ, hfail, huntouched⟩ := ih t2 t h
      refine ⟨k + 1, by simpa using Nat.succ_lt_succ hk, ?_, ?_, ?_⟩
      · rw [List.take_succ_cons]
        unfold applyEntries
        rw [hpe]
        exact happ
      · simpa [List.getD_cons_succ] using hfail
      · intro j hj
        have h0 : e.idx ≠ some j := by
          have := hj 0 (Nat.succ_pos k)
          simpa [List.getD_cons_zero] using this
        have hrest : ∀ i, i < k → (es.getD i dE).idx ≠ some j := by
          intro i hi
          have := hj (i + 1) (Nat.succ_lt_succ hi)
          simpa [List.getD_cons_succ] using this
        rw [huntouched j hrest]
        exact processEntry_preserves garbage props t0 t2 e hpe j h0

/-- Witness for the C6 amended theorem at the two-entry counterexample input. -/
theorem C6_amended_failure_applies_entries_before_failure_witness :
    ∃ k, k < ([entryC6ok, entryC6bad] : List DynEntry).length ∧
      applyEntries 0 [((1 : ℝ), 1), (1, 1)] [agU, agU]
          (([entryC6ok, entryC6bad] : List DynEntry).take k) =
        some (updateSettingGo 0 [((1 : ℝ), 1), (1, 1)] [agU, agU]
          [entryC6ok, entryC6bad]).2 ∧
      processEntry 0 [((1 : ℝ), 1), (1, 1)]
          (updateSettingGo 0 [((1 : ℝ), 1), (1, 1)] [agU, agU] [entryC6ok, entryC6bad]).2
          (([entryC6ok, entryC6bad] : List DynEntry).getD k dE) = none ∧
      ∀ j : Nat,
        (∀ i, i < k → (([entryC6ok, entryC6bad] : List DynEntry).getD i dE).idx ≠ some j) →
        (updateSettingGo 0 [((1 : ℝ), 1), (1, 1)] [agU, agU]
            [entryC6ok, entryC6bad]).2.getD j dA =
          ([agU, agU] : List AgentState).getD j dA :=
  C6_amended_failure_applies_entries_before_failure 0 [((1 : ℝ), 1), (1, 1)] [entryC6ok, entryC6bad]
    [agU, agU] _ rfl

/-! ### C8: wall-neighbour lists are never cleared -/

/-- One obstacle: the vertical wall from `(0,0)` to `(0,10)`. -/
def obsC8 : List (List (ℝ × ℝ)) := [[(0, 0), (0, 10)]]

/-- A complete dynamics entry keeping agent 0 at `(0.5, 5)`, within the wall
cutoff `dt * vMaxAgent = 0.7` of `obsC8`. -/
def entryC8 : DynEntry :=
  { idx := some 0, hasKinematics := true, position := some (0.5, 5), velocity := some (0, 0)
    theta := some 0, omega := some 0, hasDynamics := true, fp := some (0, 0), mp := some 0 }

/-- The field update `processEntry` applies for `entryC8` with
`props = [(1, 1)]` and `garbage = 0` (definitionally equal to the lambda inside
`processEntry`): position written, agent-neighbour list cleared, wall-neighbour
list untouched. -/
noncomputable def FC8 (ag : AgentState) : AgentState :=
  let vxd := (0 : ℝ) / 1 / ag.mass
  let vyd := (0 : ℝ) / 1 / ag.mass
  { ag with x := 0.5, y := 5, theta := 0, vx := 0, vy := 0, w := 0
            vx_des := vxd, vy_des := vyd, w_des := 0 / 1 / ag.moi
            theta_des := if ¬(vxd = 0 ∧ vyd = 0) then atan2 vyd vxd else 0
            v_des := (vxd, vyd), neighbours := [] }

theorem norm2_half_zero : norm2 ((1 / 2 : ℝ), (0 : ℝ)) = 1 / 2 := by
  simp only [norm2, dot2]
  exact sqrt_eval (by norm_num) (by norm_num)

theorem wall_dist_eval :
    get_distance_to_wall_and_closest_point ((0 : ℝ), (0 : ℝ)) ((0 : ℝ), (10 : ℝ))
      ((0.5 : ℝ), (5 : ℝ)) = (0.5, (0, 5)) := by
  unfold get_distance_to_wall_and_closest_point v2sub v2add smul2 dot2
  norm_num
  exact norm2_half_zero

/-- One wall pass over `obsC8` for a single agent standing at `(0.5, 5)`:
the segment is appended to the (uncleared) wall-neighbour list. -/
theorem wallPass_obsC8 (ag : AgentState) (hx : ag.x = 0.5) (hy : ag.y = 5) :
    wallPass 0.1 obsC8 [ag] 0 =
      [{ ag with neighbours_walls := ag.neighbours_walls ++ [(0, 0)] }] := by
  have hr : get_r ag = ((0.5 : ℝ), (5 : ℝ)) := by
    rw [show get_r ag = (ag.x, ag.y) from rfl, hx, hy]
  have hcond : (get_distance_to_wall_and_closest_point ((0 : ℝ), (0 : ℝ)) ((0 : ℝ), (10 : ℝ))
      (get_r ag)).1 = 0.5 := by
    rw [hr, wall_dist_eval]
  unfold wallPass
  rw [show obsC8.length = 1 from rfl, show List.range 1 = [0] from rfl]
  simp only [List.foldl_cons, List.foldl_nil]
  rw [show ((obsC8.getD 0 []).length - 1) = 1 from rfl, show List.range 1 = [0] from rfl]
  simp only [List.foldl_cons, List.foldl_nil, List.getD_cons_zero]
  rw [show (obsC8.getD 0 []).getD 0 (0, 0) = ((0 : ℝ), (0 : ℝ)) from rfl,
      show (obsC8.getD 0 []).getD (0 + 1) (0, 0) = ((0 : ℝ), (10 : ℝ)) from rfl]
  have hlt : (get_distance_to_wall_and_closest_point ((0 : ℝ), (0 : ℝ)) ((0 : ℝ), (10 : ℝ))
      (get_r ag)).1 < 0.1 * vMaxAgent := by
    rw [hcond]
    norm_num [vMaxAgent]
  rw [if_pos hlt]
  rfl

/-- Reduction of one full `updateSetting` call on a single agent with
`entryC8`: field update, then wall pass, then (empty) agent-pair pass. -/
theorem updateSetting_C8_step (ag : AgentState) :
    (updateSetting 0 [((1 : ℝ), 1)] 100 100 0.1 obsC8 [ag] [entryC8]).2 =
      agentPairPass 100 100 0.1 (wallPass 0.1 obsC8 [FC8 ag] 0) 0 := rfl

/-- C8: the claim states that BOTH transient neighbour lists are cleared at the
start of every macro step before the neighbourhood builder rebuilds them.  On
the code, `updateSetting` clears only `_neighbours`; `_neighbours_walls` is
never cleared and `determine_agents_neighbours` appends to it, so after two
macro-step update calls the single wall segment appears twice in the agent's
wall-neighbour list (stale entries carry over). -/
theorem C8_wall_list_not_cleared :
    (((updateSetting 0 [((1 : ℝ), 1)] 100 100 0.1 obsC8 [agU] [entryC8]).2.getD 0 dA)
        ).neighbours_walls = [(0, 0)] ∧
    (((updateSetting 0 [((1 : ℝ), 1)] 100 100 0.1 obsC8
        (updateSetting 0 [((1 : ℝ), 1)] 100 100 0.1 obsC8 [agU] [entryC8]).2
        [entryC8]).2.getD 0 dA)).neighbours_walls = [(0, 0), (0, 0)] ∧
    (((updateSetting 0 [((1 : ℝ), 1)] 100 100 0.1 obsC8
        (updateSetting 0 [((1 : ℝ), 1)] 100 100 0.1 obsC8 [agU] [entryC8]).2
        [entryC8]).2.getD 0 dA)).neighbours = [] := by
  have hstep : ∀ ag : AgentState,
      (updateSetting 0 [((1 : ℝ), 1)] 100 100 0.1 obsC8 [ag] [entryC8]).2 =
        [{ FC8 ag with neighbours_walls := (FC8 ag).neighbours_walls ++ [(0, 0)] }] := by
    intro ag
    rw [updateSetting_C8_step, wallPass_obsC8 (FC8 ag) rfl rfl]
    rfl
  have h1 : (updateSetting 0 [((1 : ℝ), 1)] 100 100 0.1 obsC8 [agU] [entryC8]).2 =
      [{ FC8 agU with neighbours_walls := (FC8 agU).neighbours_walls ++ [(0, 0)] }] :=
    hstep agU
  refine ⟨by rw [h1]; rfl, ?_, ?_⟩
  · rw [h1, hstep]
    rfl
  · rw [h1, hstep]
    rfl

/-! ### C3: membership characterization of the overlap scan -/

theorem pushIfInactive_mem (a x : Nat) (act : List Nat) :
    x ∈ pushIfInactive a act ↔ x ∈ act ∨ x = a := by
  unfold pushIfInactive
  by_cases ha : a ∈ act
  · rw [if_pos ha]
    constructor
    · exact Or.inl
    · rintro (h | rfl)
      · exact h
      · exact ha
  · rw [if_neg ha]
    simp [List.mem_append]

theorem scanWalls_fold_mem (obstacles : List (List (ℝ × ℝ))) (ag : AgentState) (a x : Nat) :
    ∀ (ws : List (Nat × Nat)) (act : List Nat),
      x ∈ ws.foldl (wallStep obstacles ag a) act ↔
        x ∈ act ∨ (x = a ∧ ∃ ow, ow ∈ ws ∧ wallCond obstacles ag ow)
  | [], act => by simp
  | w :: ws, act => by
    simp only [List.foldl_cons]
    by_cases hc : wallCond obstacles ag w
    · rw [show wallStep obstacles ag a act w = pushIfInactive a act from if_pos hc,
        scanWalls_fold_mem obstacles ag a x ws _, pushIfInactive_mem]
      constructor
      · rintro ((h | rfl) | ⟨rfl, ow, how, hcow⟩)
        · exact Or.inl h
        · exact Or.inr ⟨rfl, w, List.mem_cons_self w ws, hc⟩
        · exact Or.inr ⟨rfl, ow, List.mem_cons_of_mem w how, hcow⟩
      · rintro (h | ⟨rfl, ow, how, hcow⟩)
        · exact Or.inl (Or.inl h)
        · exact Or.inl (Or.inr rfl)
    · rw [show wallStep obstacles ag a act w = act from if_neg hc,
        scanWalls_fold_mem obstacles ag a x ws act]
      constructor
      · rintro (h | ⟨rfl, ow, how, hcow⟩)
        · exact Or.inl h
        · exact Or.inr ⟨rfl, ow, List.mem_cons_of_mem w how, hcow⟩
      · rintro (h | ⟨rfl, ow, how, hcow⟩)
        · exact Or.inl h
        · rcases List.mem_cons.mp how with rfl | how2
          · exact absurd hcow hc
          · exact Or.inr ⟨rfl, ow, how2, hcow⟩

theorem scanNbrs_fold_mem (ags : List AgentState) (ag : AgentState) (a x : Nat) :
    ∀ (ns : List Nat) (act : List Nat),
      x ∈ ns.foldl (nbrStep ags ag a) act ↔
        x ∈ act ∨ ∃ b, b ∈ ns ∧ nbrCond ags ag b ∧ (x = a ∨ x = b)
  | [], act => by simp
  | n :: ns, act => by
    simp only [List.foldl_cons]
    by_cases hc : nbrCond ags ag n
    · rw [show nbrStep ags ag a act n = pushIfInactive n (pushIfInactive a act) from if_pos hc,
        scanNbrs_fold_mem ags ag a x ns _, pushIfInactive_mem, pushIfInactive_mem]
      constructor
      · rintro (((h | hxa) | hxn) | ⟨b, hb, hcb, hx⟩)
        · exact Or.inl h
        · exact Or.inr ⟨n, List.mem_cons_self n ns, hc, Or.inl hxa⟩
        · exact Or.inr ⟨n, List.mem_cons_self n ns, hc, Or.inr hxn⟩
        · exact Or.inr ⟨b, List.mem_cons_of_mem n hb, hcb, hx⟩
      · rintro (h | ⟨b, hb, hcb, hx⟩)
        · exact Or.inl (Or.inl (Or.inl h))
        · rcases hx with hxa | hxb
          · exact Or.inl (Or.inl (Or.inr hxa))
          · rcases List.mem_cons.mp hb with rfl | hb2
            · exact Or.inl (Or.inr hxb)
            · exact Or.inr ⟨b, hb2, hcb, Or.inr hxb⟩
    · rw [show nbrStep ags ag a act n = act from if_neg hc,
        scanNbrs_fold_mem ags ag a x ns act]
      constructor
      · rintro (h | ⟨b, hb, hcb, hx⟩)
        · exact Or.inl h
        · exact Or.inr ⟨b, List.mem_cons_of_mem n hb, hcb, hx⟩
      · rintro (h | ⟨b, hb, hcb, hx⟩)
        · exact Or.inl h
        · rcases List.mem_cons.mp hb with rfl | hb2
          · exact absurd hcb hc
          · exact Or.inr ⟨b, hb2, hcb, hx⟩

/-- Which agent ids the processing of agent `a` marks active. -/
def firedAt (obstacles : List (List (ℝ × ℝ))) (ags : List AgentState) (a x : Nat) : Prop :=
  (x = a ∧ ∃ ow, ow ∈ (ags.getD a dA).neighbours_walls ∧
      wallCond obstacles (ags.getD a dA) ow) ∨
  (∃ b, b ∈ (ags.getD a dA).neighbours ∧ nbrCond ags (ags.getD a dA) b ∧ (x = a ∨ x = b))

theorem scanAgentStep_mem (obstacles : List (List (ℝ × ℝ))) (ags : List AgentState)
    (act : List Nat) (a x : Nat) :
    x ∈ scanAgentStep obstacles ags act a ↔ x ∈ act ∨ firedAt obstacles ags a x := by
  unfold scanAgentStep scanNbrs scanWalls firedAt
  rw [scanNbrs_fold_mem, scanWalls_fold_mem, or_assoc]

theorem overlapScan_fold_mem (obstacles : List (List (ℝ × ℝ))) (ags : List AgentState) (x : Nat) :
    ∀ (la : List Nat) (act : List Nat),
      x ∈ la.foldl (scanAgentStep obstacles ags) act ↔
        x ∈ act ∨ ∃ a, a ∈ la ∧ firedAt obstacles ags a x
  | [], act => by simp
  | a0 :: la, act => by
    simp only [List.foldl_cons]
    rw [overlapScan_fold_mem obstacles ags x la _, scanAgentStep_mem]
    constructor
    · rintro ((h | hf) | ⟨a, ha, hf⟩)
      · exact Or.inl h
      · exact Or.inr ⟨a0, List.mem_cons_self a0 la, hf⟩
      · exact Or.inr ⟨a, List.mem_cons_of_mem a0 ha, hf⟩
    · rintro (h | ⟨a, ha, hf⟩)
      · exact Or.inl (Or.inl h)
      · rcases List.mem_cons.mp ha with rfl | ha2
        · exact Or.inl (Or.inr hf)
        · exact Or.inr ⟨a, ha2, hf⟩

/-- C3 amended: in the overlap scan the agent/wall test is the EUCLIDEAN
distance `|r' - M| < radius_enclose + 0.1` (not the periodic one): an agent is
marked active iff some wall neighbour of it satisfies that Euclidean test, or
the scan's agent/agent test fires for a neighbour pair involving it. -/
theorem C3_amended_scan_marks_iff (obstacles : List (List (ℝ × ℝ))) (ags : List AgentState)
    (x : Nat) :
    x ∈ overlapScan obstacles ags ↔
      (x < ags.length ∧ ∃ ow, ow ∈ (ags.getD x dA).neighbours_walls ∧
          norm2 (v2sub (get_r (ags.getD x dA)) (middlePointWall obstacles ow)) <
            (ags.getD x dA).radius + 1e-1) ∨
      (∃ a, a < ags.length ∧ ∃ b, b ∈ (ags.getD a dA).neighbours ∧
          norm2 (v2sub (get_r (ags.getD a dA)) (get_r (ags.getD b dA))) <
            |(ags.getD a dA).radius + (ags.getD b dA).radius| + 1e-1 ∧
          (x = a ∨ x = b)) := by
  unfold overlapScan
  rw [overlapScan_fold_mem]
  simp only [List.not_mem_nil, false_or, List.mem_range]
  constructor
  · rintro ⟨a, ha, (⟨rfl, ow, how, hc⟩ | ⟨b, hb, hc, hx⟩)⟩
    · exact Or.inl ⟨ha, ow, how, hc⟩
    · exact Or.inr ⟨a, ha, b, hb, hc, hx⟩
  · rintro (⟨hx, ow, how, hc⟩ | ⟨a, ha, b, hb, hc, hx⟩)
    · exact ⟨x, hx, Or.inl ⟨rfl, ow, how, hc⟩⟩
    · exact ⟨a, ha, Or.inr ⟨b, hb, hc, hx⟩⟩

/-! ### C3 counterexample: the wall test is Euclidean, not periodic -/

/-- An agent near the left edge of the domain with one wall neighbour. -/
def agC3 : AgentState :=
  { dA with x := 0.1, y := 50, radius := 0.2, neighbours_walls := [(0, 0)] }

/-- One obstacle: a vertical wall segment near the right edge, whose midpoint
`(99.9, 50)` is at periodic distance `0.2` from the agent but at Euclidean
distance `99.8`. -/
def obsC3 : List (List (ℝ × ℝ)) := [[(99.9, 40), (99.9, 60)]]

theorem middlePointWall_obsC3 : middlePointWall obsC3 (0, 0) = ((99.9 : ℝ), (50 : ℝ)) := by
  unfold middlePointWall v2add smul2 obsC3
  norm_num

theorem norm2_wrapgap : norm2 ((0.1 : ℝ) - 99.9, (50 : ℝ) - 50) = 99.8 := by
  simp only [norm2, dot2]
  exact sqrt_eval (by norm_num) (by norm_num)

/-- C3 counterexample: the claim states the wall overlap test marks the agent
iff the PERIODIC distance from the projected position to the segment midpoint
is below `radius_enclose + 0.1`.  For the agent at `(0.1, 50)` with the wall
neighbour whose midpoint is `(99.9, 50)` on the 100 x 100 torus, the periodic
distance `0.2` is below `0.2 + 0.1`, yet the scan (which uses the Euclidean
distance `99.8`) does not mark the agent. -/
theorem C3_counterexample :
    min_image_distance 100 100 (get_r agC3) (middlePointWall obsC3 (0, 0)) <
      agC3.radius + 1e-1 ∧
    (0 : Nat) ∉ overlapScan obsC3 [agC3] := by
  constructor
  · rw [middlePointWall_obsC3, show get_r agC3 = ((0.1 : ℝ), (50 : ℝ)) from rfl,
      min_image_distance_eval_ab]
    show (0.2 : ℝ) < agC3.radius + 1e-1
    norm_num [agC3, dA]
  · have hcond : ¬ wallCond obsC3 agC3 (0, 0) := by
      unfold wallCond
      rw [middlePointWall_obsC3, show get_r agC3 = ((0.1 : ℝ), (50 : ℝ)) from rfl]
      rw [show v2sub ((0.1 : ℝ), (50 : ℝ)) ((99.9 : ℝ), (50 : ℝ)) =
          ((0.1 : ℝ) - 99.9, (50 : ℝ) - 50) from rfl]
      rw [norm2_wrapgap]
      show ¬ (99.8 : ℝ) < agC3.radius + 1e-1
      norm_num [agC3, dA]
    intro hmem
    rcases (C3_amended_scan_marks_iff obsC3 [agC3] 0).mp hmem with
      ⟨_, ow, how, hc⟩ | ⟨a, ha, b, hb, _, _⟩
    · have how2 : ow = (0, 0) := by
        have : ow ∈ [((0 : Nat), (0 : Nat))] := how
        simpa using this
      subst how2
      exact hcond hc
    · have ha0 : a < 1 := by simpa using ha
      have ha1 : a = 0 := by omega
      subst ha1
      have : b ∈ ([] : List Nat) := hb
      simp at this

/-! ### C4: the closure stage is transitive, not one hop -/

theorem addNbrs_cons (l : List Nat) (n : Nat) (ns : List Nat) :
    addNbrs l (n :: ns) = if n ∈ l then addNbrs l ns else addNbrs (l ++ [n]) ns := by
  unfold addNbrs
  rw [List.foldl_cons]
  by_cases hn : n ∈ l
  · rw [if_pos hn, if_pos hn]
  · rw [if_neg hn, if_neg hn]

theorem addNbrs_eq_append (ns : List Nat) :
    ∀ l : List Nat, ∃ tl, addNbrs l ns = l ++ tl ∧ ∀ x ∈ tl, x ∈ ns := by
  induction ns with
  | nil => exact fun l => ⟨[], by simp [addNbrs], by simp⟩
  | cons n ns ih =>
    intro l
    rw [addNbrs_cons]
    by_cases hn : n ∈ l
    · rw [if_pos hn]
      obtain ⟨tl, htl, hmem⟩ := ih l
      exact ⟨tl, htl, fun x hx => List.mem_cons_of_mem n (hmem x hx)⟩
    · rw [if_neg hn]
      obtain ⟨tl, htl, hmem⟩ := ih (l ++ [n])
      refine ⟨n :: tl, by rw [htl]; simp, ?_⟩
      intro x hx
      rcases List.mem_cons.mp hx with rfl | hx2
      · exact List.mem_cons_self x ns
      · exact List.mem_cons_of_mem n (hmem x hx2)

theorem mem_addNbrs_of_mem (ns l : List Nat) (x : Nat) (hx : x ∈ l) : x ∈ addNbrs l ns := by
  obtain ⟨tl, htl, _⟩ := addNbrs_eq_append ns l
  rw [htl]
  exact List.mem_append_left tl hx

theorem mem_addNbrs_of_mem_ns (ns : List Nat) :
    ∀ (l : List Nat) (x : Nat), x ∈ ns → x ∈ addNbrs l ns := by
  induction ns with
  | nil => intro l x hx; cases hx
  | cons n ns ih =>
    intro l x hx
    rw [addNbrs_cons]
    rcases List.mem_cons.mp hx with rfl | hx2
    · by_cases hn : x ∈ l
      · rw [if_pos hn]
        exact mem_addNbrs_of_mem ns l x hn
      · rw [if_neg hn]
        exact mem_addNbrs_of_mem ns (l ++ [x]) x (by simp)
    · by_cases hn : n ∈ l
      · rw [if_pos hn]
        exact ih l x hx2
      · rw [if_neg hn]
        exact ih (l ++ [n]) x hx2

theorem addNbrs_nodup (ns : List Nat) :
    ∀ l : List Nat, l.Nodup → (addNbrs l ns).Nodup := by
  induction ns with
  | nil => exact fun l h => h
  | cons n ns ih =>
    intro l hl
    rw [addNbrs_cons]
    by_cases hn : n ∈ l
    · rw [if_pos hn]
      exact ih l hl
    · rw [if_neg hn]
      refine ih (l ++ [n]) ?_
      rw [List.nodup_append]
      exact ⟨hl, List.nodup_singleton n, fun a ha hb => hn (by
        rcases List.mem_singleton.mp hb with rfl
        exact ha)⟩

theorem addNbrs_length_le (ns l : List Nat) : l.length ≤ (addNbrs l ns).length := by
  obtain ⟨tl, htl, _⟩ := addNbrs_eq_append ns l
  rw [htl, List.length_append]
  omega

theorem nodup_bounded_length_le (l : List Nat) (N : Nat) (hl : l.Nodup)
    (hb : ∀ x ∈ l, x < N) : l.length ≤ N := by
  have h1 : l.toFinset.card = l.length := List.toFinset_card_of_nodup hl
  have h2 : l.toFinset ⊆ Finset.range N := by
    intro x hx
    rw [Finset.mem_range]
    exact hb x (List.mem_toFinset.mp hx)
  have := Finset.card_le_card h2
  rw [h1, Finset.card_range] at this
  exact this

/-- The closure worklist invariant: starting from a list whose first `i`
entries are already processed, with enough fuel the result contains the input
and is closed under the neighbour relation. -/
theorem closureGo_spec (ags : List AgentState) (N : Nat) (hN : N = ags.length)
    (hnbrs : ∀ p n, n ∈ nbrsOf ags p → n < N) :
    ∀ (fuel : Nat) (l : List Nat) (i : Nat),
      l.Nodup → (∀ x ∈ l, x < N) →
      (∀ j, j < i → ∀ n ∈ nbrsOf ags (l.getD j 0), n ∈ l) →
      i ≤ l.length → N ≤ fuel + i →
      (∀ x ∈ l, x ∈ closureGo ags fuel l i) ∧
      (∀ p ∈ closureGo ags fuel l i, ∀ n ∈ nbrsOf ags p, n ∈ closureGo ags fuel l i) := by
  intro fuel
  induction fuel with
  | zero =>
    intro l i hnodup hbound hproc hi hfuel
    simp only [closureGo]
    refine ⟨fun x hx => hx, ?_⟩
    intro p hp n hn
    obtain ⟨j, hj, hpj⟩ := List.mem_iff_getElem.mp hp
    have hlN : l.length ≤ N := nodup_bounded_length_le l N hnodup hbound
    have hji : j < i := by omega
    have hgd : l.getD j 0 = p := by
      rw [List.getD_eq_getElem l 0 hj]
      exact hpj
    exact hproc j hji n (by rw [hgd]; exact hn)
  | succ fuel ih =>
    intro l i hnodup hbound hproc hi hfuel
    unfold closureGo
    by_cases hil : i < l.length
    · rw [if_pos hil]
      set ns := nbrsOf ags (l.getD i 0) with hns
      have hl2 := addNbrs_eq_append ns l
      obtain ⟨tl, htl, htlmem⟩ := hl2
      have hup1 : ∀ x ∈ l, x ∈ addNbrs l ns := fun x hx => mem_addNbrs_of_mem ns l x hx
      have hb2 : ∀ x ∈ addNbrs l ns, x < N := by
        intro x hx
        rw [htl] at hx
        rcases List.mem_append.mp hx with hx1 | hx2
        · exact hbound x hx1
        · exact hnbrs (l.getD i 0) x (htlmem x hx2)
      have hproc2 : ∀ j, j < i + 1 → ∀ n ∈ nbrsOf ags ((addNbrs l ns).getD j 0),
          n ∈ addNbrs l ns := by
        intro j hj n hn
        have hjl : j < l.length := by omega
        have hgd : (addNbrs l ns).getD j 0 = l.getD j 0 := by
          rw [htl]
          exact List.getD_append l tl 0 j hjl
        rw [hgd] at hn
        by_cases hji : j < i
        · exact hup1 n (hproc j hji n hn)
        · have hjiq : j = i := by omega
          subst hjiq
          exact mem_addNbrs_of_mem_ns ns l n hn
      have hres := ih (addNbrs l ns) (i + 1) (addNbrs_nodup ns l hnodup) hb2 hproc2
        (by have := addNbrs_length_le ns l; omega) (by omega)
      exact ⟨fun x hx => hres.1 x (hup1 x hx), hres.2⟩
    · rw [if_neg hil]
      refine ⟨fun x hx => hx, ?_⟩
      intro p hp n hn
      obtain ⟨j, hj, hpj⟩ := List.mem_iff_getElem.mp hp
      have hji : j < i := by omega
      have hgd : l.getD j 0 = p := by
        rw [List.getD_eq_getElem l 0 hj]
        exact hpj
      exact hproc j hji n (by rw [hgd]; exact hn)

/-- C4 amended: the closure loop iterates a list that is being appended to, so
it also processes the agents added during the pass; the resulting active set
contains the initially marked agents and is CLOSED under agent-neighbourship
(every neighbour of any member is a member), hence agents at neighbour-graph
distance two or more from the initially marked set are added as well. -/
theorem C4_amended_closure_closed (ags : List AgentState) (init : List Nat)
    (hnodup : init.Nodup) (hinit : ∀ x ∈ init, x < ags.length)
    (hnbrs : ∀ p n, n ∈ nbrsOf ags p → n < ags.length) :
    (∀ x ∈ init, x ∈ closure ags init) ∧
    (∀ p ∈ closure ags init, ∀ n ∈ nbrsOf ags p, n ∈ closure ags init) := by
  unfold closure
  exact closureGo_spec ags ags.length rfl hnbrs (ags.length + init.length) init 0
    hnodup hinit (by omega) (by omega) (by omega)

/-- The three-agent chain 0 - 1 - 2: only symmetric neighbour links between
0, 1 and between 1, 2. -/
def chainAgs : List AgentState :=
  [{ dA with neighbours := [1] }, { dA with neighbours := [0, 2] },
    { dA with neighbours := [1] }]

/-- C4 counterexample: the claim states the closure adds only DIRECT neighbours
of the agents marked by the earlier stages (one hop).  With only agent 0
initially active in the chain 0 - 1 - 2, the closure also adds agent 2, whose
neighbour-graph distance to agent 0 is two: 2 is in the closure although it is
neither initially active nor a neighbour of 0. -/
theorem C4_counterexample :
    closure chainAgs [0] = [0, 1, 2] ∧
    (2 : Nat) ∉ (0 : Nat) :: (chainAgs.getD 0 dA).neighbours := by
  constructor
  · rfl
  · show (2 : Nat) ∉ [0, 1]
    decide

/-- Witness for the C4 amended theorem on the three-agent chain. -/
theorem C4_amended_closure_closed_witness :
    (∀ x ∈ ([0] : List Nat), x ∈ closure chainAgs [0]) ∧
    (∀ p ∈ closure chainAgs [0], ∀ n ∈ nbrsOf chainAgs p, n ∈ closure chainAgs [0]) := by
  refine C4_amended_closure_closed chainAgs [0] (by simp) (by simp [chainAgs]) ?_
  have hlen : chainAgs.length = 3 := rfl
  intro p n hn
  by_cases hp : p < 3
  · rw [hlen]
    interval_cases p
    · have hn1 : n ∈ [1] := hn
      simp at hn1
      omega
    · have hn1 : n ∈ [0, 2] := hn
      rcases List.mem_cons.mp hn1 with rfl | h2
      · omega
      · rcases List.mem_cons.mp h2 with rfl | h3
        · omega
        · cases h3
    · have hn1 : n ∈ [1] := hn
      simp at hn1
      omega
  · have hd : chainAgs.getD p dA = dA := List.getD_eq_default chainAgs dA (by rw [hlen]; omega)
    have hn1 : n ∈ (chainAgs.getD p dA).neighbours := hn
    rw [hd] at hn1
    cases hn1

end CrowdMech
